import Mathlib

/-!
Verification of the Cryptobase GUI action-queue engine and the Thorchain
Savers stake plugin against their natural-language specification.

The data model is embedded from `src/controllers/action-queue/types.ts` and
`src/plugins/stake-plugins/thorchainSavers/tcSavers.ts`.  Monetary amounts
are decimal strings manipulated with the `biggystring` library in the
source; they are embedded as `Int` (native amounts are integral) and `Rat`
(exchange amounts with decimal places).  Behaviour that the repository only
declares (the effect checker, the action evaluator and the seq scheduler)
is modelled from the specification and marked as such in doc comments.
-/

namespace ActionQueue

/-- `ActionOp` from types.ts: the declarative tagged union of operations.
`rawTx : Uint8Array` is embedded as a list of bytes. -/
inductive ActionOp where
  | seq (actions : List ActionOp)
  | par (actions : List ActionOp)
  | broadcastTx (pluginId : String) (rawTx : List Nat)
  | wyreBuy (nativeAmount : String) (walletId : String) (tokenId : Option String)
  | wyreSell (wyreAccountId : String) (nativeAmount : String) (walletId : String) (tokenId : Option String)
  | loanBorrow (borrowPluginId : String) (nativeAmount : String) (walletId : String) (tokenId : Option String)
  | loanDeposit (borrowPluginId : String) (nativeAmount : String) (walletId : String) (tokenId : Option String)
  | loanRepay (borrowPluginId : String) (nativeAmount : String) (walletId : String) (tokenId : Option String) (fromTokenId : Option String)
  | loanWithdraw (borrowPluginId : String) (nativeAmount : String) (walletId : String) (tokenId : Option String)
  | swap (amountFor : Bool) (fromTokenId : Option String) (fromWalletId : String) (nativeAmount : String) (toTokenId : Option String) (toWalletId : String)

/-- The `type` discriminant string of each `ActionOp` variant, as written in
the TypeScript tagged union. -/
def ActionOp.typeTag : ActionOp → String
  | .seq _ => "seq"
  | .par _ => "par"
  | .broadcastTx _ _ => "broadcast-tx"
  | .wyreBuy _ _ _ => "wyre-buy"
  | .wyreSell _ _ _ _ => "wyre-sell"
  | .loanBorrow _ _ _ _ => "loan-borrow"
  | .loanDeposit _ _ _ _ => "loan-deposit"
  | .loanRepay _ _ _ _ _ => "loan-repay"
  | .loanWithdraw _ _ _ _ => "loan-withdraw"
  | .swap _ _ _ _ _ _ => "swap"

/-- The `ActionOpTypes` union from types.ts, verbatim: note it contains
`toast` and `delay` but not `broadcast-tx`. -/
def ActionOpTypes : List String :=
  ["seq", "par", "wyre-buy", "wyre-sell", "loan-borrow", "loan-deposit",
   "loan-repay", "loan-withdraw", "swap", "toast", "delay"]

/-- The tags of the variants actually present in the `ActionOp` union of
types.ts. -/
def actionOpVariantTags : List String :=
  ["seq", "par", "broadcast-tx", "wyre-buy", "wyre-sell", "loan-borrow",
   "loan-deposit", "loan-repay", "loan-withdraw", "swap"]

/-- `ActionEffect` from types.ts.  Amount bounds (`aboveAmount`,
`belowAmount`, decimal strings in the source) are embedded as `Int`;
exchange rates as `Rat`.  `childEffects` entries are `Option` because the
source allows `null` during dryrun. -/
inductive ActionEffect where
  | seq (opIndex : Nat) (childEffects : List (Option ActionEffect))
  | par (childEffects : List (Option ActionEffect))
  | addressBalance (address : String) (aboveAmount : Option Int) (belowAmount : Option Int) (walletId : String) (tokenId : Option String)
  | pushEvent (eventId : String) (effect : Option ActionEffect)
  | priceLevel (currencyPair : String) (aboveRate : Option Rat) (belowRate : Option Rat)
  | txConfs (txId : String) (walletId : String) (confirmations : Nat)
  | done (error : Option String) (cancelled : Option Bool)

/-- `EffectCheckResult` from types.ts. -/
structure EffectCheckResult where
  delay : Nat
  isEffective : Bool
  updatedEffect : Option ActionEffect

/-- The live account/wallet capabilities the effect checker consumes
(balance lookup keyed by wallet id, address and token id; exchange-rate
lookup; confirmation-count lookup; push-event signal flags) together with
the advisory polling delay each effect kind suggests. -/
structure CheckEnv where
  balance : String → String → Option String → Int
  rate : String → Rat
  confs : String → String → Nat
  eventSignaled : String → Bool
  pollMs : String → Nat

/-- Whether a (possibly null) child effect is a `done` effect. -/
def isDoneOpt : Option ActionEffect → Bool
  | some (.done _ _) => true
  | _ => false

/-- Modelled from the spec: the effect checker `checkActionEffect`, whose
implementation is not part of this repository (types.ts only declares its
signature).  Per spec section 4.2: `address-balance` is effective iff the
fetched balance is above `aboveAmount` and below `belowAmount` (absent
bound = unconstrained); `price-level` is analogous; `tx-confs` is effective
once the confirmation count reaches the target; `push-event` is effective
once the event id has been signaled and then chains its nested effect via
`updatedEffect`; `seq` checks only the active child, `par` checks all
non-`done` children and aggregates the minimum delay; `done` is always
effective immediately with delay 0. -/
def checkActionEffect (env : CheckEnv) : ActionEffect → EffectCheckResult
  | .done _ _ =>
      { delay := 0, isEffective := true, updatedEffect := none }
  | .addressBalance address aboveAmount belowAmount walletId tokenId =>
      let bal := env.balance walletId address tokenId
      { delay := env.pollMs "address-balance",
        isEffective :=
          (match aboveAmount with
           | none => true
           | some a => decide (a < bal)) &&
          (match belowAmount with
           | none => true
           | some b => decide (bal < b)),
        updatedEffect := none }
  | .priceLevel currencyPair aboveRate belowRate =>
      let r := env.rate currencyPair
      { delay := env.pollMs "price-level",
        isEffective :=
          (match aboveRate with
           | none => true
           | some a => decide (a < r)) &&
          (match belowRate with
           | none => true
           | some b => decide (r < b)),
        updatedEffect := none }
  | .txConfs txId walletId confirmations =>
      { delay := env.pollMs "tx-confs",
        isEffective := decide (confirmations ≤ env.confs txId walletId),
        updatedEffect := none }
  | .pushEvent eventId effect =>
      if env.eventSignaled eventId then
        { delay := env.pollMs "push-event", isEffective := true, updatedEffect := effect }
      else
        { delay := env.pollMs "push-event", isEffective := false, updatedEffect := none }
  | .seq opIndex childEffects =>
      match hc : childEffects.get? opIndex with
      | some (some child) =>
          let r := checkActionEffect env child
          { delay := r.delay, isEffective := r.isEffective, updatedEffect := none }
      | _ =>
          { delay := env.pollMs "seq", isEffective := false, updatedEffect := none }
  | .par childEffects =>
      let rs := (childEffects.filter fun c => !(isDoneOpt c)).attach.map fun c =>
        match c with
        | ⟨some child, _h⟩ => checkActionEffect env child
        | ⟨none, _h⟩ =>
            { delay := env.pollMs "par", isEffective := false, updatedEffect := none }
      { delay := rs.foldl (fun acc r => min acc r.delay) (env.pollMs "par"),
        isEffective := rs.all fun r => r.isEffective,
        updatedEffect := none }
decreasing_by
  all_goals simp_wf
  · have h1 : some child ∈ childEffects := List.get?_mem hc
    have h2 := List.sizeOf_lt_of_mem h1
    simp at h2
    omega
  · have h1 : some child ∈ childEffects := List.mem_of_mem_filter _h
    have h2 := List.sizeOf_lt_of_mem h1
    simp at h2
    omega

/-- A broadcast transaction record (`BroadcastTx` from types.ts; the opaque
`EdgeTransaction` is embedded as its id, the fee as `Int`). -/
structure BroadcastTx where
  walletId : String
  networkFee : Int
  txId : String

/-- `ExecutionOutput` from types.ts: the effect to watch plus the
transactions broadcast. -/
structure ExecutionOutput where
  effect : ActionEffect
  broadcastTxs : List BroadcastTx

/-- `PendingTxMap` from types.ts: wallet id to pending transaction ids. -/
def PendingTxMap := String → List String

/-- A mutation of an external resource (wallet spend, provider call,
transaction broadcast).  Executable units report the mutations they
perform, making frame conditions expressible in the pure embedding. -/
inductive ResourceMutation where
  | broadcast (tx : BroadcastTx)
  | spend (walletId : String)
  | providerCall (name : String)

/-- `ExecutableAction` from types.ts, enriched with explicit mutation
traces: `dryrun` takes a pending-transactions snapshot and returns a
preview (or `none`) plus the external mutations it performed; `execute`
returns the authoritative output plus its mutations. -/
structure ExecutableAction where
  dryrun : PendingTxMap → Option ExecutionOutput × List ResourceMutation
  execute : ExecutionOutput × List ResourceMutation

/-- The capability snapshot a leaf op is compiled against: whether the op
would conflict with pending transactions, whether it is already satisfied,
the effect it watches for and the transactions its execution broadcasts. -/
structure LeafCapability where
  conflictsWithPending : PendingTxMap → Bool
  alreadySatisfied : Bool
  watchEffect : ActionEffect
  txsToBroadcast : List BroadcastTx

/-- A leaf action is a no-op exactly when it conflicts with the pending
transactions or is already satisfied (spec section 4.1). -/
def leafIsNoop (cap : LeafCapability) (pendingTxMap : PendingTxMap) : Bool :=
  cap.conflictsWithPending pendingTxMap || cap.alreadySatisfied

/-- Modelled from the spec: the action evaluator's output unit for a leaf
op (the evaluator itself is not part of this repository; types.ts only
declares `ExecutableAction`).  Per spec section 4.1, `dryrun` checks,
without mutating any external resource, whether executing now would
conflict with pending transactions, returning `none` for a no-op and a
preview output otherwise, and never broadcasts; `execute` performs the
real side effects and returns the authoritative output. -/
def evaluateLeafAction (cap : LeafCapability) : ExecutableAction where
  dryrun pendingTxMap :=
    if leafIsNoop cap pendingTxMap then (none, [])
    else (some { effect := cap.watchEffect, broadcastTxs := [] }, [])
  execute :=
    ({ effect := cap.watchEffect, broadcastTxs := cap.txsToBroadcast },
     cap.txsToBroadcast.map ResourceMutation.broadcast)

/-- The `opIndex` a `seq` evaluation targets: the stored `seq` effect's
index, or 0 if no effect has been recorded yet (spec section 4.1). -/
def seqOpIndex : Option ActionEffect → Nat
  | some (.seq i _) => i
  | _ => 0

/-- The stored child effects of a `seq` effect (empty before the first
execution). -/
def seqStoredEffects : Option ActionEffect → List (Option ActionEffect)
  | some (.seq _ cs) => cs
  | _ => []

/-- The stored child effects of a `par` effect (empty before the first
execution). -/
def parStoredEffects : Option ActionEffect → List (Option ActionEffect)
  | some (.par cs) => cs
  | _ => []

mutual

/-- Modelled from the spec: the recursive action evaluator
`evaluateAction`, whose implementation is not part of this repository
(types.ts only declares `ExecutableAction`).  Per spec section 4.1 it
compiles an op and the current program-state effect into an executable
unit.  For `seq` the unit defers to the child unit at the effect's
`opIndex` (0 if no effect yet) and wraps the child's output effect — a
`done` effect after the last child, otherwise the sequence effect
advanced to the next child's not-yet-executed placeholder.  For `par`,
`dryrun` and `execute` each fan out to every child unit and join before
returning, recording `null` child effects for children whose dry-run
reported a no-op.  Leaf ops are compiled against their capability
snapshot.  Compiling a unit performs no effect: only running its `dryrun`
or `execute` does. -/
def evaluateAction (capOf : ActionOp → LeafCapability) :
    ActionOp → Option ActionEffect → ExecutableAction
  | .seq actions, effect =>
      let units := evaluateChildren capOf actions (seqStoredEffects effect)
      match units.get? (seqOpIndex effect) with
      | some childUnit =>
          let wrap : ActionEffect → ActionEffect := fun e =>
            if seqOpIndex effect + 1 < actions.length then
              .seq (seqOpIndex effect + 1)
                ((actions.map fun _ => (none : Option ActionEffect)).set (seqOpIndex effect)
                  (some e))
            else .done none none
          { dryrun := fun pendingTxMap =>
              match childUnit.dryrun pendingTxMap with
              | (none, muts) => (none, muts)
              | (some out, muts) =>
                  (some { effect := wrap out.effect, broadcastTxs := out.broadcastTxs }, muts),
            execute :=
              ({ effect := wrap childUnit.execute.1.effect,
                 broadcastTxs := childUnit.execute.1.broadcastTxs }, childUnit.execute.2) }
      | none =>
          { dryrun := fun _ => (none, []),
            execute := ({ effect := .done none none, broadcastTxs := [] }, []) }
  | .par actions, effect =>
      let units := evaluateChildren capOf actions (parStoredEffects effect)
      { dryrun := fun pendingTxMap =>
          let results := units.map fun u => u.dryrun pendingTxMap
          let muts := (results.map fun r => r.2).flatten
          if results.all fun r => r.1.isNone then (none, muts)
          else
            (some { effect := .par (results.map fun r => r.1.map ExecutionOutput.effect),
                    broadcastTxs :=
                      (results.map fun r =>
                        (r.1.map ExecutionOutput.broadcastTxs).getD []).flatten },
             muts),
        execute :=
          let results := units.map fun u => u.execute
          ({ effect := .par (results.map fun r => some r.1.effect),
             broadcastTxs := (results.map fun r => r.1.broadcastTxs).flatten },
           (results.map fun r => r.2).flatten) }
  | op, _ => evaluateLeafAction (capOf op)
termination_by op effect => sizeOf op
decreasing_by
  all_goals simp_wf
  all_goals omega

/-- The evaluator units of a list of child ops, each child paired with its
stored effect positionally. -/
def evaluateChildren (capOf : ActionOp → LeafCapability) :
    List ActionOp → List (Option ActionEffect) → List ExecutableAction
  | [], _ => []
  | a :: as, stored =>
      evaluateAction capOf a (stored.headD none) :: evaluateChildren capOf as stored.tail
termination_by as stored => sizeOf as
decreasing_by
  all_goals simp_wf
  all_goals omega

end

mutual

/-- Modelled from the spec: whether an op would be a no-op if executed
now — a leaf conflicts with pending transactions or is already satisfied,
a `seq` defers to its active child (vacuously a no-op when the index is
out of range), and a `par` is a no-op exactly when all its children
are. -/
def actionIsNoop (capOf : ActionOp → LeafCapability) :
    ActionOp → Option ActionEffect → PendingTxMap → Bool
  | .seq actions, effect, pendingTxMap =>
      ((childrenNoopFlags capOf actions (seqStoredEffects effect) pendingTxMap).get?
        (seqOpIndex effect)).getD true
  | .par actions, effect, pendingTxMap =>
      (childrenNoopFlags capOf actions (parStoredEffects effect) pendingTxMap).all id
  | op, _, pendingTxMap => leafIsNoop (capOf op) pendingTxMap
termination_by op effect pendingTxMap => sizeOf op
decreasing_by
  all_goals simp_wf
  all_goals omega

/-- The per-child no-op flags of a list of child ops. -/
def childrenNoopFlags (capOf : ActionOp → LeafCapability) :
    List ActionOp → List (Option ActionEffect) → PendingTxMap → List Bool
  | [], _, _ => []
  | a :: as, stored, pendingTxMap =>
      actionIsNoop capOf a (stored.headD none) pendingTxMap ::
        childrenNoopFlags capOf as stored.tail pendingTxMap
termination_by as stored pendingTxMap => sizeOf as
decreasing_by
  all_goals simp_wf
  all_goals omega

end

/-- Events observable while a `seq` program runs: the evaluator evaluating
(executing) child `i`, the poll observing child `i`'s effect `done`, and
the final transition to the program-level `done` effect. -/
inductive SeqEvent where
  | evalChild (i : Nat)
  | childDone (i : Nat)
  | finish
deriving DecidableEq

/-- The per-program state the scheduler tracks for a `seq` program: the
stored effect (absent until the first execution) and the `effective` flag,
as in `ActionProgramState` of types.ts. -/
structure SeqProgSt where
  effect : Option ActionEffect
  effective : Bool

/-- A freshly queued program: no effect, not effective. -/
def initSeqSt : SeqProgSt := { effect := none, effective := false }

/-- Modelled from the spec: the transitions of a `seq` program with `N`
children (spec sections 4.1 and 4.3; the evaluator/scheduler are not part
of this repository).  The first execution targets child 0 and records a
`seq` effect with `opIndex = 0`; a poll that observes the active child's
effect `done` marks the program effective; once effective, the evaluator
either advances `opIndex` to the next child (recording that child's fresh
effect) or, after the last child, replaces the effect with `done`. -/
inductive SeqStep (N : Nat) : SeqProgSt → SeqEvent → SeqProgSt → Prop where
  | execFirst (childEffects : List (Option ActionEffect))
      (hN : 0 < N) (hlen : childEffects.length = N) :
      SeqStep N { effect := none, effective := false } (.evalChild 0)
        { effect := some (.seq 0 childEffects), effective := false }
  | observeDone (i : Nat) (childEffects : List (Option ActionEffect))
      (hi : i < childEffects.length) :
      SeqStep N { effect := some (.seq i childEffects), effective := false } (.childDone i)
        { effect := some (.seq i (childEffects.set i (some (.done none none)))), effective := true }
  | advance (i : Nat) (childEffects : List (Option ActionEffect))
      (childEffect : Option ActionEffect) (h : i + 1 < N) :
      SeqStep N { effect := some (.seq i childEffects), effective := true } (.evalChild (i + 1))
        { effect := some (.seq (i + 1) (childEffects.set (i + 1) childEffect)), effective := false }
  | complete (i : Nat) (childEffects : List (Option ActionEffect)) (h : i + 1 = N) :
      SeqStep N { effect := some (.seq i childEffects), effective := true } .finish
        { effect := some (.done none none), effective := true }

/-- A run of a `seq` program: a sequence of steps with its event trace. -/
inductive SeqRun (N : Nat) : SeqProgSt → List SeqEvent → SeqProgSt → Prop where
  | refl (s : SeqProgSt) : SeqRun N s [] s
  | step {s s' t : SeqProgSt} {e : SeqEvent} {es : List SeqEvent} :
      SeqStep N s e s' → SeqRun N s' es t → SeqRun N s (e :: es) t

/-- The `opIndex` a program state is at: 0 before the first execution, the
stored `seq` effect's `opIndex` while running, `N` once the effect has been
replaced by `done`. -/
def progOpIndex (N : Nat) : SeqProgSt → Nat
  | { effect := none, effective := _ } => 0
  | { effect := some (.seq i _), effective := _ } => i
  | { effect := some _, effective := _ } => N

/-- Whether the program's stored effect is the terminal `done` effect. -/
def SeqProgSt.isDone : SeqProgSt → Bool
  | { effect := some (.done _ _), effective := _ } => true
  | _ => false

/-- Invariant of reachable `seq` program states: while the stored effect
is a `seq` effect, its `opIndex` addresses one of the `N` children. -/
def seqInv (N : Nat) (s : SeqProgSt) : Prop :=
  match s.effect with
  | some (.seq i _) => i < N
  | _ => True

end ActionQueue

namespace TcSavers

/-- Truncation toward zero, the rounding biggystring's `toFixed(x, 0, 0)`
performs when dropping all decimal places. -/
def truncToInt (q : Rat) : Int := if 0 ≤ q then ⌊q⌋ else -⌊-q⌋

/-- biggystring `div(a, b, p)`: the quotient truncated to `p` decimal
places. -/
def bigDiv (a b : Rat) (p : Nat) : Rat :=
  (truncToInt (a / b * (10 : Rat) ^ p) : Rat) / (10 : Rat) ^ p

/-- `TC_SAVERS_WITHDRAWAL_SCALE_UNITS = '10000'` from tcSavers.ts. -/
def TC_SAVERS_WITHDRAWAL_SCALE_UNITS : Int := 10000

/-- `THOR_LIMIT_UNITS = '100000000'` from tcSavers.ts. -/
def THOR_LIMIT_UNITS : Int := 100000000

/-- `DIVIDE_PRECISION = 18` from tcSavers.ts. -/
def DIVIDE_PRECISION : Nat := 18

/-- The `'utxo' | 'evm'` discriminant of `PolicyCurrencyInfo`. -/
inductive CurrencyType where
  | utxo
  | evm
deriving DecidableEq

/-- `PolicyCurrencyInfo` from tcSavers.ts (`minAmount` is a decimal string
in the source, embedded as `Int`). -/
structure PolicyCurrencyInfo where
  currencyType : CurrencyType
  minAmount : Int
deriving DecidableEq

/-- `utxoInfo` from tcSavers.ts. -/
def utxoInfo : PolicyCurrencyInfo := { currencyType := .utxo, minAmount := 10000 }

/-- `evmInfo` from tcSavers.ts. -/
def evmInfo : PolicyCurrencyInfo := { currencyType := .evm, minAmount := 0 }

/-- The `policyCurrencyInfos` table from tcSavers.ts, keyed by plugin id;
`none` for plugin ids absent from the table. -/
def policyCurrencyInfos (pluginId : String) : Option PolicyCurrencyInfo :=
  if pluginId = "avalanche" then some evmInfo
  else if pluginId = "bitcoin" then some utxoInfo
  else if pluginId = "bitcoincash" then some utxoInfo
  else if pluginId = "dogecoin" then some { utxoInfo with minAmount := 100000000 }
  else if pluginId = "ethereum" then some evmInfo
  else if pluginId = "litecoin" then some utxoInfo
  else none

/-- An asset identifier (`AssetId` from the stake-plugin types). -/
structure AssetId where
  pluginId : String
  currencyCode : String
deriving DecidableEq

/-- `StakeProviderInfo` from the stake-plugin types. -/
structure StakeProviderInfo where
  displayName : String
  pluginId : String
  stakeProviderId : String
deriving DecidableEq

/-- `StakePolicy` from the stake-plugin types (the fields tcSavers.ts
populates; `apy` starts at 0 in the static list). -/
structure StakePolicy where
  stakePolicyId : String
  stakeProviderInfo : StakeProviderInfo
  apy : Int
  rewardAssets : List AssetId
  stakeAssets : List AssetId
deriving DecidableEq

/-- The `stakeProviderInfo` constant from tcSavers.ts. -/
def stakeProviderInfo : StakeProviderInfo :=
  { displayName := "Thorchain Savers", pluginId := "thorchain", stakeProviderId := "tcsavers" }

/-- The static `policies` list from tcSavers.ts. -/
def policies : List StakePolicy :=
  [ { stakePolicyId := "tcsavers/bitcoin:btc=bitcoin:btc", stakeProviderInfo, apy := 0,
      rewardAssets := [{ pluginId := "bitcoin", currencyCode := "BTC" }],
      stakeAssets := [{ pluginId := "bitcoin", currencyCode := "BTC" }] },
    { stakePolicyId := "tcsavers/litecoin:ltc=litecoin:ltc", stakeProviderInfo, apy := 0,
      rewardAssets := [{ pluginId := "litecoin", currencyCode := "LTC" }],
      stakeAssets := [{ pluginId := "litecoin", currencyCode := "LTC" }] },
    { stakePolicyId := "tcsavers/bitcoincash:bch=bitcoincash:bch", stakeProviderInfo, apy := 0,
      rewardAssets := [{ pluginId := "bitcoincash", currencyCode := "BCH" }],
      stakeAssets := [{ pluginId := "bitcoincash", currencyCode := "BCH" }] },
    { stakePolicyId := "tcsavers/dogecoin:doge=dogecoin:doge", stakeProviderInfo, apy := 0,
      rewardAssets := [{ pluginId := "dogecoin", currencyCode := "DOGE" }],
      stakeAssets := [{ pluginId := "dogecoin", currencyCode := "DOGE" }] },
    { stakePolicyId := "tcsavers/ethereum:eth=ethereum:eth", stakeProviderInfo, apy := 0,
      rewardAssets := [{ pluginId := "ethereum", currencyCode := "ETH" }],
      stakeAssets := [{ pluginId := "ethereum", currencyCode := "ETH" }] },
    { stakePolicyId := "tcsavers/avalanche:avax=avalanche:avax", stakeProviderInfo, apy := 0,
      rewardAssets := [{ pluginId := "avalanche", currencyCode := "AVAX" }],
      stakeAssets := [{ pluginId := "avalanche", currencyCode := "AVAX" }] } ]

/-- The `MAINNET_CODE_TRANSCRIPTION` table from tcSavers.ts. -/
def MAINNET_CODE_TRANSCRIPTION (pluginId : String) : Option String :=
  if pluginId = "bitcoin" then some "BTC"
  else if pluginId = "bitcoincash" then some "BCH"
  else if pluginId = "binancechain" then some "BNB"
  else if pluginId = "litecoin" then some "LTC"
  else if pluginId = "ethereum" then some "ETH"
  else if pluginId = "dogecoin" then some "DOGE"
  else if pluginId = "avalanche" then some "AVAX"
  else if pluginId = "thorchain" then some "THOR"
  else none

/-- The wallet capability tcSavers.ts consumes (`EdgeCurrencyWallet`,
opaque in the source): its currency info, balances, and the denomination
multiplier by which `denominationToNative` multiplies and
`nativeToDenomination` divides. -/
structure EdgeCurrencyWallet where
  pluginId : String
  currencyCode : String
  balances : String → Int
  denomMultiplier : Nat

/-- The `action` field of `ChangeQuoteRequest`. -/
inductive ChangeQuoteAction where
  | stake
  | unstake
  | claim
  | unstakeExact
deriving DecidableEq

/-- `ChangeQuoteRequest` from the stake-plugin types (`nativeAmount` is a
decimal string in the source, embedded as `Int`). -/
structure ChangeQuoteRequest where
  action : ChangeQuoteAction
  stakePolicyId : String
  currencyCode : String
  nativeAmount : Int
  wallet : EdgeCurrencyWallet

/-- The errors tcSavers.ts throws (each `throw` site gets one variant). -/
inductive QuoteError where
  | policyNotFound
  | currencyCodeMismatch
  | pluginIdMismatch
  | notMainnetCurrency
  | invalidAction
  | missingPolicyCurrencyInfo
  | belowMinStake
  | insufficientFunds (currencyCode : String)
  | quoteFetchFailed
  | walletSpendFailed (msg : String)
  | divisionByZero
deriving DecidableEq

/-- Validation errors in the spec's taxonomy: currency/wallet/policy
mismatch and policy-not-found. -/
def isValidationError : QuoteError → Bool
  | .policyNotFound => true
  | .currencyCodeMismatch => true
  | .pluginIdMismatch => true
  | .notMainnetCurrency => true
  | _ => false

/-- Whether an error is an `InsufficientFundsError`. -/
def QuoteError.isInsufficientFunds : QuoteError → Bool
  | .insufficientFunds _ => true
  | _ => false

/-- A side effect performed while serving a quote request: a network fetch
by path, or an awaited wallet method call by name. -/
inductive SideEffect where
  | networkFetch (path : String)
  | walletCall (method : String)
deriving DecidableEq

/-- The result of an awaited `wallet.makeSpend` estimate: success with a
network fee, an `InsufficientFundsError`, or some other wallet error. -/
inductive SpendResult where
  | ok (networkFee : Int)
  | insufficient
  | failed (msg : String)
deriving DecidableEq

/-- The external world `stakeRequest` consumes: the wallet's primary
receive address and its balance (`getPrimaryAddress`), the Thorchain
deposit quote (`expected_amount_out`, `inbound_address`; `none` when the
fetch fails), and the two `makeSpend` estimates. -/
structure StakeEnv where
  primaryAddress : String
  addressBalance : Int
  quote : Option (Int × String)
  estimatePoolSpend : SpendResult
  estimateFundSpend : SpendResult

/-- The `allocationType` values tcSavers.ts uses in change quotes. -/
inductive AllocationType where
  | stake
  | unstake
  | claim
  | fee
deriving DecidableEq

/-- `QuoteAllocation` from the stake-plugin types. -/
structure QuoteAllocation where
  allocationType : AllocationType
  pluginId : String
  currencyCode : String
  nativeAmount : Int
deriving DecidableEq

/-- `ChangeQuote` from the stake-plugin types (the `approve` closure's
side effects are outside the quoted data). -/
structure ChangeQuote where
  allocations : List QuoteAllocation
deriving DecidableEq

/-- `getPolicyFromId` from tcSavers.ts: find the policy or throw. -/
def getPolicyFromId (policyId : String) : Except QuoteError StakePolicy :=
  match policies.find? fun policy => policy.stakePolicyId == policyId with
  | none => .error .policyNotFound
  | some policy => .ok policy

/-- `needsFundingPrimary` as computed by `stakeRequest`: true when the
primary address balance is short of the requested amount, or when the
direct spend estimate from the primary address throws
`InsufficientFundsError` (other estimate errors are swallowed by the
`catch` and leave the flag false). -/
def needsFundingPrimary (env : StakeEnv) (request : ChangeQuoteRequest) : Bool :=
  if env.addressBalance < request.nativeAmount then true
  else match env.estimatePoolSpend with
    | .insufficient => true
    | _ => false

/-- `stakeRequest` from tcSavers.ts, returning the quote (or the error the
source throws) together with the trace of network fetches and wallet calls
it performed, in order. -/
def stakeRequest (env : StakeEnv) (request : ChangeQuoteRequest) (_policy : StakePolicy) :
    Except QuoteError ChangeQuote × List SideEffect :=
  let wallet := request.wallet
  let pluginId := wallet.pluginId
  match policyCurrencyInfos pluginId with
  | none => (.error .missingPolicyCurrencyInfo, [])
  | some policyCurrencyInfo =>
    let walletBalance := wallet.balances request.currencyCode
    let minAmount := policyCurrencyInfo.minAmount
    let minStakeAmount := minAmount + TC_SAVERS_WITHDRAWAL_SCALE_UNITS
    -- `wallet.nativeToDenomination` is awaited before the amount checks
    let exchangeAmount : Rat := (request.nativeAmount : Rat) / (wallet.denomMultiplier : Rat)
    let thorAmount : Int := truncToInt (exchangeAmount * (THOR_LIMIT_UNITS : Rat))
    let trace0 : List SideEffect := [.walletCall "nativeToDenomination"]
    if request.nativeAmount < minStakeAmount then
      (.error .belowMinStake, trace0)
    else if walletBalance < request.nativeAmount then
      (.error (.insufficientFunds request.currencyCode), trace0)
    else
      -- updateInboundAddresses, getPrimaryAddress, then the deposit quote
      let trace1 := trace0 ++
        [.networkFetch "thorchain/inbound_addresses",
         .walletCall "getReceiveAddress",
         .networkFetch "thorchain/quote/saver/deposit"]
      match env.quote with
      | none => (.error .quoteFetchFailed, trace1)
      | some (expectedAmountOut, _poolAddress) =>
        let slippageThorAmount : Int := thorAmount - expectedAmountOut
        let slippageDisplayAmount : Rat :=
          bigDiv (slippageThorAmount : Rat) (THOR_LIMIT_UNITS : Rat) DIVIDE_PRECISION
        let slippageNativeAmount : Rat := slippageDisplayAmount * (wallet.denomMultiplier : Rat)
        -- the direct spend estimate only runs when the primary address may cover the amount
        let trace2 := trace1 ++
          (if env.addressBalance < request.nativeAmount then [] else [.walletCall "makeSpend"])
        let poolFee : Int :=
          if env.addressBalance < request.nativeAmount then 0
          else match env.estimatePoolSpend with
            | .ok fee => fee
            | _ => 0
        let mkQuote (needsFunding : Bool) (networkFee : Int) : ChangeQuote :=
          let totalFee : Rat :=
            slippageNativeAmount + ((if needsFunding then networkFee * 2 else networkFee : Int) : Rat)
          { allocations :=
              [ { allocationType := .stake, pluginId := pluginId,
                  currencyCode := request.currencyCode, nativeAmount := request.nativeAmount },
                { allocationType := .fee, pluginId := pluginId,
                  currencyCode := request.currencyCode, nativeAmount := truncToInt totalFee } ] }
        if needsFundingPrimary env request then
          match env.estimateFundSpend with
          | .ok networkFee =>
            let remainingBalance := walletBalance - networkFee * 2 - request.nativeAmount
            if remainingBalance < 0 then
              (.error (.insufficientFunds request.currencyCode), trace2 ++ [.walletCall "makeSpend"])
            else
              (.ok (mkQuote true networkFee), trace2 ++ [.walletCall "makeSpend"])
          | .insufficient =>
            (.error (.insufficientFunds request.currencyCode), trace2 ++ [.walletCall "makeSpend"])
          | .failed msg =>
            (.error (.walletSpendFailed msg), trace2 ++ [.walletCall "makeSpend"])
        else
          (.ok (mkQuote false poolFee), trace2)

/-- `unstakeRequest` from tcSavers.ts: a constant zero-amount quote with
no side effects. -/
def unstakeRequest (_request : ChangeQuoteRequest) (policy : StakePolicy) :
    Except QuoteError ChangeQuote × List SideEffect :=
  let asset := policy.stakeAssets.headD { pluginId := "", currencyCode := "" }
  (.ok { allocations :=
      [ { allocationType := .unstake, pluginId := asset.pluginId,
          currencyCode := asset.currencyCode, nativeAmount := 0 } ] }, [])

/-- `fetchChangeQuote` from tcSavers.ts: resolve the policy, run the three
synchronous validations, then dispatch through `changeQuoteFuncs`
(`unstakeExact` has no entry there, so the source would call `undefined`). -/
def fetchChangeQuote (env : StakeEnv) (request : ChangeQuoteRequest) :
    Except QuoteError ChangeQuote × List SideEffect :=
  match getPolicyFromId request.stakePolicyId with
  | .error e => (.error e, [])
  | .ok policy =>
    let asset := policy.stakeAssets.headD { pluginId := "", currencyCode := "" }
    if request.currencyCode ≠ asset.currencyCode then
      (.error .currencyCodeMismatch, [])
    else if asset.pluginId ≠ request.wallet.pluginId then
      (.error .pluginIdMismatch, [])
    else if request.currencyCode ≠ request.wallet.currencyCode then
      (.error .notMainnetCurrency, [])
    else match request.action with
      | .stake => stakeRequest env request policy
      | .unstake => unstakeRequest request policy
      | .claim => unstakeRequest request policy
      | .unstakeExact => (.error .invalidAction, [])

/-- A Thorchain saver record (`asSaver` cleaner): the numeric string
fields used in arithmetic (`units`, `asset_deposit_value`) are embedded as
`Int`. -/
structure Saver where
  asset : String
  asset_address : String
  last_add_height : Int
  units : Int
  asset_deposit_value : Int

/-- A Midgard pool record (`asPool` cleaner): the numeric string fields
used in arithmetic are embedded as `Int`, the rest kept as strings. -/
structure Pool where
  asset : String
  status : String
  assetPrice : String
  assetPriceUSD : String
  assetDepth : Int
  saversDepth : Int
  saversUnits : Int
  runeDepth : Int

/-- `StakePositionRequest` from the stake-plugin types. -/
structure StakePositionRequest where
  stakePolicyId : String
  wallet : EdgeCurrencyWallet

/-- The `allocationType` values of `PositionAllocation`. -/
inductive PositionAllocationType where
  | staked
  | unstaked
  | earned
deriving DecidableEq

/-- `PositionAllocation` from the stake-plugin types. -/
structure PositionAllocation where
  pluginId : String
  currencyCode : String
  allocationType : PositionAllocationType
  nativeAmount : Int
deriving DecidableEq

/-- `StakePosition` from the stake-plugin types. -/
structure StakePosition where
  allocations : List PositionAllocation
  canStake : Bool
  canUnstake : Bool
  canClaim : Bool
deriving DecidableEq

/-- The external world `fetchStakePosition` consumes: the wallet's primary
address and the fetched saver and pool lists. -/
structure PositionEnv where
  primaryAddress : String
  savers : List Saver
  pools : List Pool

/-- Lowercase a string character by character (JS
`String.prototype.toLowerCase` on the ASCII addresses involved). -/
def strToLower (s : String) : String := String.mk (s.data.map Char.toLower)

/-- The saver whose `asset_address` matches the wallet's primary address
case-insensitively (`savers.find` in tcSavers.ts). -/
def findSaver (env : PositionEnv) : Option Saver :=
  env.savers.find? fun s => strToLower s.asset_address == strToLower env.primaryAddress

/-- The Thorchain asset name `mainnetCode.currencyCode` for a policy
(an absent transcription entry yields the string `undefined` in JS). -/
def assetName (policy : StakePolicy) : String :=
  let asset0 := policy.stakeAssets.headD { pluginId := "", currencyCode := "" }
  ((MAINNET_CODE_TRANSCRIPTION asset0.pluginId).getD "undefined") ++ "." ++ asset0.currencyCode

/-- The pool whose `asset` matches the policy's asset (`pools.find` in
tcSavers.ts). -/
def findPool (env : PositionEnv) (policy : StakePolicy) : Option Pool :=
  env.pools.find? fun p => p.asset == assetName policy

/-- The redeemable value `div(mul(units, saversDepth), saversUnits, 18)`
computed by `fetchStakePosition`. -/
def redeemableValue (saver : Saver) (pool : Pool) : Rat :=
  bigDiv ((saver.units * pool.saversDepth : Int) : Rat) ((pool.saversUnits : Int) : Rat)
    DIVIDE_PRECISION

/-- `fetchStakePosition` from tcSavers.ts.  When a saver and a pool are
found, the staked amount is the saver's deposit value and the earned
amount is the redeemable value minus the deposit, both converted from Thor
units to exchange amount (divide by `THOR_LIMIT_UNITS`), then to native
amount (multiply by the wallet's denomination multiplier), truncated, and
the earned amount capped below at 0; otherwise both amounts are 0.  The
returned flags are always true.  A zero `saversUnits` makes the
biggystring division throw, embedded as an error. -/
def fetchStakePosition (env : PositionEnv) (request : StakePositionRequest) :
    Except QuoteError StakePosition :=
  match getPolicyFromId request.stakePolicyId with
  | .error e => .error e
  | .ok policy =>
    let asset0 := policy.stakeAssets.headD { pluginId := "", currencyCode := "" }
    let m : Rat := (request.wallet.denomMultiplier : Rat)
    match findSaver env, findPool env policy with
    | some saver, some pool =>
      if pool.saversUnits = 0 then .error .divisionByZero
      else
        let stakedThor : Int := saver.asset_deposit_value
        let earnedThor : Rat := redeemableValue saver pool - (stakedThor : Rat)
        let stakedExch : Rat := bigDiv (stakedThor : Rat) (THOR_LIMIT_UNITS : Rat) DIVIDE_PRECISION
        let earnedExch : Rat := bigDiv earnedThor (THOR_LIMIT_UNITS : Rat) DIVIDE_PRECISION
        let stakedNative : Int := truncToInt (stakedExch * m)
        let earnedNative : Int := truncToInt (earnedExch * m)
        let allocs : List PositionAllocation :=
          [ { pluginId := asset0.pluginId, currencyCode := asset0.currencyCode,
              allocationType := .staked, nativeAmount := stakedNative },
            { pluginId := asset0.pluginId, currencyCode := asset0.currencyCode,
              allocationType := .earned, nativeAmount := max earnedNative 0 } ]
        .ok { allocations := allocs, canStake := true, canUnstake := true, canClaim := true }
    | _, _ =>
      let allocs : List PositionAllocation :=
        [ { pluginId := asset0.pluginId, currencyCode := asset0.currencyCode,
            allocationType := .staked, nativeAmount := 0 },
          { pluginId := asset0.pluginId, currencyCode := asset0.currencyCode,
            allocationType := .earned, nativeAmount := 0 } ]
      .ok { allocations := allocs, canStake := true, canUnstake := true, canClaim := true }

/-- A test wallet on bitcoin mainnet with the given balance for every
currency code. -/
def testWallet (balance : Int) : EdgeCurrencyWallet :=
  { pluginId := "bitcoin", currencyCode := "BTC", balances := fun _ => balance,
    denomMultiplier := 100000000 }

/-- A stake request against the bitcoin savers policy. -/
def testStakeReq (amount balance : Int) : ChangeQuoteRequest :=
  { action := .stake, stakePolicyId := "tcsavers/bitcoin:btc=bitcoin:btc",
    currencyCode := "BTC", nativeAmount := amount, wallet := testWallet balance }

/-- A benign stake environment for tests. -/
def testStakeEnv : StakeEnv :=
  { primaryAddress := "addr", addressBalance := 0, quote := some (900, "pool"),
    estimatePoolSpend := .ok 100, estimateFundSpend := .ok 100 }

/-- The bitcoin savers policy (the first entry of `policies`). -/
def btcPolicy : StakePolicy :=
  { stakePolicyId := "tcsavers/bitcoin:btc=bitcoin:btc", stakeProviderInfo, apy := 0,
    rewardAssets := [{ pluginId := "bitcoin", currencyCode := "BTC" }],
    stakeAssets := [{ pluginId := "bitcoin", currencyCode := "BTC" }] }

/-- A position request against the bitcoin savers policy. -/
def testPosReq : StakePositionRequest :=
  { stakePolicyId := "tcsavers/bitcoin:btc=bitcoin:btc", wallet := testWallet 0 }

/-- A saver for the test wallet whose redeemable value is below its
deposit value. -/
def testSaver : Saver :=
  { asset := "BTC.BTC", asset_address := "ADDR", last_add_height := 1,
    units := 100, asset_deposit_value := 60 }

/-- A pool paired with `testSaver`. -/
def testPool : Pool :=
  { asset := "BTC.BTC", status := "available", assetPrice := "1", assetPriceUSD := "1",
    assetDepth := 1000, saversDepth := 50, saversUnits := 100, runeDepth := 1000 }

/-- A position environment in which the test saver and pool are found. -/
def testPosEnv : PositionEnv :=
  { primaryAddress := "addr", savers := [testSaver], pools := [testPool] }

/-- A position environment with no savers and no pools. -/
def emptyPosEnv : PositionEnv :=
  { primaryAddress := "addr", savers := [], pools := [] }

/-- The position computed for `testPosEnv`: 60 units staked, earned capped
from -10 to 0. -/
def testPosResult : StakePosition :=
  { allocations :=
      [ { pluginId := "bitcoin", currencyCode := "BTC",
          allocationType := .staked, nativeAmount := 60 },
        { pluginId := "bitcoin", currencyCode := "BTC",
          allocationType := .earned, nativeAmount := 0 } ],
    canStake := true, canUnstake := true, canClaim := true }

/-- The position computed for `emptyPosEnv`: all amounts zero. -/
def emptyPosResult : StakePosition :=
  { allocations :=
      [ { pluginId := "bitcoin", currencyCode := "BTC",
          allocationType := .staked, nativeAmount := 0 },
        { pluginId := "bitcoin", currencyCode := "BTC",
          allocationType := .earned, nativeAmount := 0 } ],
    canStake := true, canUnstake := true, canClaim := true }

end TcSavers


namespace ActionQueue

/-- C5 counterexample: the `broadcast-tx` variant is part of the
`ActionOp` union, but its type tag is not a member of the `ActionOpTypes`
enumeration (which instead lists `toast` and `delay`). -/
theorem broadcastTx_tag_not_in_ActionOpTypes :
    (ActionOp.broadcastTx "bitcoin" []).typeTag = "broadcast-tx" ∧
    "broadcast-tx" ∉ ActionOpTypes := by
  exact ⟨rfl, by decide⟩

/-- C5 (amended): `ActionOp` is a tagged union whose variants are exactly
`seq`, `par`, `broadcast-tx`, `wyre-buy`, `wyre-sell`, `loan-borrow`,
`loan-deposit`, `loan-repay`, `loan-withdraw` and `swap`; every variant's
type tag except `broadcast-tx` is a member of the `ActionOpTypes`
enumeration (`broadcast-tx` is missing from it). -/
theorem actionOp_tagged_union :
    (∀ op : ActionOp, op.typeTag ∈ actionOpVariantTags ∧
      (op.typeTag = "broadcast-tx" ∨ op.typeTag ∈ ActionOpTypes)) ∧
    (∃ ops : List ActionOp, ops.map ActionOp.typeTag = actionOpVariantTags) := by
  constructor
  · intro op
    cases op <;>
      exact ⟨by simp [ActionOp.typeTag, actionOpVariantTags],
        by simp [ActionOp.typeTag, ActionOpTypes]⟩
  · exact ⟨[.seq [], .par [], .broadcastTx "" [], .wyreBuy "" "" none,
      .wyreSell "" "" "" none, .loanBorrow "" "" "" none, .loanDeposit "" "" "" none,
      .loanRepay "" "" "" none none, .loanWithdraw "" "" "" none,
      .swap true none "" "" none ""], rfl⟩

/-- C3: checking a `done` effect returns `isEffective = true`, `delay = 0`
and no `updatedEffect`, independently of the environment — checking `done`
is idempotent. -/
theorem done_check_idempotent (env : CheckEnv) (error : Option String)
    (cancelled : Option Bool) :
    checkActionEffect env (.done error cancelled) =
      { delay := 0, isEffective := true, updatedEffect := none } := by
  simp [checkActionEffect]

/-- C2: for an `address-balance` effect, `checkActionEffect` reports
`isEffective = true` iff (aboveAmount is absent or the fetched balance
exceeds it) and (belowAmount is absent or the fetched balance is below
it). -/
theorem addressBalance_isEffective_iff (env : CheckEnv) (address walletId : String)
    (tokenId : Option String) (aboveAmount belowAmount : Option Int) :
    (checkActionEffect env
        (.addressBalance address aboveAmount belowAmount walletId tokenId)).isEffective = true ↔
      ((aboveAmount = none ∨
          ∃ a, aboveAmount = some a ∧ a < env.balance walletId address tokenId) ∧
       (belowAmount = none ∨
          ∃ b, belowAmount = some b ∧ env.balance walletId address tokenId < b)) := by
  cases aboveAmount <;> cases belowAmount <;> simp [checkActionEffect]


/-- `all` over a mapped list tests the composed predicate. -/
theorem all_map_general {α β : Type} (l : List α) (f : α → β) (p : β → Bool) :
    (l.map f).all p = l.all fun x => p (f x) := by
  induction l with
  | nil => rfl
  | cons a l ih => simp [List.all_cons, ih]

theorem evaluateAction_frame_aux (capOf : ActionOp → LeafCapability) :
    ∀ (n : Nat) (op : ActionOp), sizeOf op ≤ n →
    ∀ (effect : Option ActionEffect) (pendingTxMap : PendingTxMap),
      ((evaluateAction capOf op effect).dryrun pendingTxMap).2 = [] ∧
      (((evaluateAction capOf op effect).dryrun pendingTxMap).1 = none ↔
        actionIsNoop capOf op effect pendingTxMap = true) ∧
      (((evaluateAction capOf op effect).dryrun pendingTxMap).1.map
          ExecutionOutput.broadcastTxs).getD [] = [] ∧
      (evaluateAction capOf op effect).execute.2 =
        ((evaluateAction capOf op effect).execute.1.broadcastTxs).map
          ResourceMutation.broadcast := by
  intro n
  induction n with
  | zero =>
    intro op h
    exfalso
    cases op <;> simp at h
  | succ n ih =>
    intro op hle effect pendingTxMap
    have key : ∀ (as : List ActionOp), (∀ a ∈ as, sizeOf a ≤ n) →
        ∀ (stored : List (Option ActionEffect)),
        (∀ u ∈ evaluateChildren capOf as stored, ∀ ptm',
          (u.dryrun ptm').2 = [] ∧
          ((u.dryrun ptm').1.map ExecutionOutput.broadcastTxs).getD [] = [] ∧
          u.execute.2 = (u.execute.1.broadcastTxs).map ResourceMutation.broadcast) ∧
        (childrenNoopFlags capOf as stored pendingTxMap =
          (evaluateChildren capOf as stored).map fun u =>
            ((u.dryrun pendingTxMap).1.isNone)) := by
      intro as
      induction as with
      | nil =>
        intro _ stored
        exact ⟨fun u hu => absurd hu (by simp [evaluateChildren]),
          by simp [evaluateChildren, childrenNoopFlags]⟩
      | cons a as ihas =>
        intro hszs stored
        obtain ⟨hA, hB⟩ := ihas (fun x hx => hszs x (List.mem_cons_of_mem _ hx)) stored.tail
        refine ⟨?_, ?_⟩
        · intro u hu ptm'
          simp only [evaluateChildren, List.mem_cons] at hu
          rcases hu with rfl | hu
          · obtain ⟨y1, y2, y3, y4⟩ :=
              ih a (hszs a (List.mem_cons_self _ _)) (stored.headD none) ptm'
            exact ⟨y1, y3, y4⟩
          · exact hA u hu ptm'
        · obtain ⟨x1, x2, x3, x4⟩ :=
            ih a (hszs a (List.mem_cons_self _ _)) (stored.headD none) pendingTxMap
          simp only [childrenNoopFlags, evaluateChildren, List.map_cons, hB]
          congr 1
          cases ho : ((evaluateAction capOf a (stored.headD none)).dryrun pendingTxMap).1 with
          | none =>
            rw [ho] at x2
            simp only [Option.isNone_none]
            exact x2.mp rfl
          | some v =>
            rw [ho] at x2
            simp only [Option.isNone_some]
            cases hno : actionIsNoop capOf a (stored.headD none) pendingTxMap
            · rfl
            · exact absurd (x2.mpr hno) (by simp)
    cases op with
    | seq actions =>
      have hsz : ∀ a ∈ actions, sizeOf a ≤ n := by
        intro a ha
        have h2 := List.sizeOf_lt_of_mem ha
        simp at hle
        omega
      obtain ⟨keyA, keyB⟩ := key actions hsz (seqStoredEffects effect)
      simp only [evaluateAction, actionIsNoop]
      cases hx : (evaluateChildren capOf actions (seqStoredEffects effect)).get?
          (seqOpIndex effect) with
      | none =>
        have hflag : (childrenNoopFlags capOf actions (seqStoredEffects effect)
            pendingTxMap).get? (seqOpIndex effect) = none := by
          rw [keyB, List.get?_map, hx]
          rfl
        simp only [hx, hflag]
        exact ⟨by simp, by simp, by simp, by simp⟩
      | some childUnit =>
        have huMem : childUnit ∈ evaluateChildren capOf actions (seqStoredEffects effect) :=
          List.get?_mem hx
        obtain ⟨u1, u2, u3⟩ := keyA childUnit huMem pendingTxMap
        have hflag : (childrenNoopFlags capOf actions (seqStoredEffects effect)
            pendingTxMap).get? (seqOpIndex effect) =
            some ((childUnit.dryrun pendingTxMap).1.isNone) := by
          rw [keyB, List.get?_map, hx]
          rfl
        simp only [hx, hflag]
        cases hdr : childUnit.dryrun pendingTxMap with
        | mk o muts =>
          rw [hdr] at u1 u2
          cases o with
          | none => exact ⟨u1, by simp, by simp, u3⟩
          | some out => exact ⟨u1, by simp, by simpa using u2, u3⟩
    | par actions =>
      have hsz : ∀ a ∈ actions, sizeOf a ≤ n := by
        intro a ha
        have h2 := List.sizeOf_lt_of_mem ha
        simp at hle
        omega
      obtain ⟨keyA, keyB⟩ := key actions hsz (parStoredEffects effect)
      have hmuts : (((evaluateChildren capOf actions (parStoredEffects effect)).map
          fun u => u.dryrun pendingTxMap).map fun r => r.2).flatten = [] := by
        rw [List.flatten_eq_nil_iff]
        intro l hl
        obtain ⟨r, hr, rfl⟩ := List.mem_map.mp hl
        obtain ⟨u, hu, rfl⟩ := List.mem_map.mp hr
        exact (keyA u hu pendingTxMap).1
      have hall : (((evaluateChildren capOf actions (parStoredEffects effect)).map
            fun u => u.dryrun pendingTxMap).all fun r => r.1.isNone) =
          (childrenNoopFlags capOf actions (parStoredEffects effect) pendingTxMap).all id := by
        rw [keyB, all_map_general, all_map_general]
        simp
      have hbc : (((evaluateChildren capOf actions (parStoredEffects effect)).map
          fun u => u.dryrun pendingTxMap).map fun r =>
            (r.1.map ExecutionOutput.broadcastTxs).getD []).flatten = [] := by
        rw [List.flatten_eq_nil_iff]
        intro l hl
        obtain ⟨r, hr, rfl⟩ := List.mem_map.mp hl
        obtain ⟨u, hu, rfl⟩ := List.mem_map.mp hr
        exact (keyA u hu pendingTxMap).2.1
      simp only [evaluateAction, actionIsNoop]
      refine ⟨?_, ?_, ?_, ?_⟩
      · split <;> simpa using hmuts
      · split
        next hc =>
          have hft : (childrenNoopFlags capOf actions (parStoredEffects effect)
              pendingTxMap).all id = true := by
            rw [← hall]
            exact hc
          simp [hft]
        next hc =>
          have hff : ¬((childrenNoopFlags capOf actions (parStoredEffects effect)
              pendingTxMap).all id = true) := by
            rw [← hall]
            exact hc
          simp [hff]
      · split
        next hc => simp
        next hc => simpa using hbc
      · have hcong : (evaluateChildren capOf actions (parStoredEffects effect)).map
            (fun u => u.execute.2) =
            (evaluateChildren capOf actions (parStoredEffects effect)).map
            (fun u => (u.execute.1.broadcastTxs).map ResourceMutation.broadcast) :=
          List.map_congr_left fun u hu => (keyA u hu pendingTxMap).2.2
        rw [List.map_flatten]
        simp only [List.map_map, Function.comp_def]
        rw [hcong]
    | broadcastTx p r =>
      simp only [evaluateAction, actionIsNoop, evaluateLeafAction]
      cases hno : leafIsNoop (capOf (.broadcastTx p r)) pendingTxMap <;> simp [hno]
    | wyreBuy a b c =>
      simp only [evaluateAction, actionIsNoop, evaluateLeafAction]
      cases hno : leafIsNoop (capOf (.wyreBuy a b c)) pendingTxMap <;> simp [hno]
    | wyreSell a b c d =>
      simp only [evaluateAction, actionIsNoop, evaluateLeafAction]
      cases hno : leafIsNoop (capOf (.wyreSell a b c d)) pendingTxMap <;> simp [hno]
    | loanBorrow a b c d =>
      simp only [evaluateAction, actionIsNoop, evaluateLeafAction]
      cases hno : leafIsNoop (capOf (.loanBorrow a b c d)) pendingTxMap <;> simp [hno]
    | loanDeposit a b c d =>
      simp only [evaluateAction, actionIsNoop, evaluateLeafAction]
      cases hno : leafIsNoop (capOf (.loanDeposit a b c d)) pendingTxMap <;> simp [hno]
    | loanRepay a b c d e =>
      simp only [evaluateAction, actionIsNoop, evaluateLeafAction]
      cases hno : leafIsNoop (capOf (.loanRepay a b c d e)) pendingTxMap <;> simp [hno]
    | loanWithdraw a b c d =>
      simp only [evaluateAction, actionIsNoop, evaluateLeafAction]
      cases hno : leafIsNoop (capOf (.loanWithdraw a b c d)) pendingTxMap <;> simp [hno]
    | swap a b c d e f =>
      simp only [evaluateAction, actionIsNoop, evaluateLeafAction]
      cases hno : leafIsNoop (capOf (.swap a b c d e f)) pendingTxMap <;> simp [hno]


/-- C4: for every `ExecutableAction` the evaluator produces — leaf units
and the `seq`/`par` composite units alike — `dryrun` performs no external
mutation (the pending-transactions snapshot is read-only), returns `none`
exactly when the action would be a no-op against the snapshot, and its
preview output contains no broadcast transactions; the broadcast
mutations happen only in `execute`, which reports exactly the
transactions it broadcast. -/
theorem dryrun_readonly_no_broadcast (capOf : ActionOp → LeafCapability)
    (op : ActionOp) (effect : Option ActionEffect) (pendingTxMap : PendingTxMap) :
    ((evaluateAction capOf op effect).dryrun pendingTxMap).2 = [] ∧
    (((evaluateAction capOf op effect).dryrun pendingTxMap).1 = none ↔
      actionIsNoop capOf op effect pendingTxMap = true) ∧
    (((evaluateAction capOf op effect).dryrun pendingTxMap).1.map
        ExecutionOutput.broadcastTxs).getD [] = [] ∧
    (evaluateAction capOf op effect).execute.2 =
      ((evaluateAction capOf op effect).execute.1.broadcastTxs).map
        ResourceMutation.broadcast :=
  evaluateAction_frame_aux capOf (sizeOf op) op le_rfl effect pendingTxMap

end ActionQueue

namespace ActionQueue

/-- Each step of a `seq` program leaves `progOpIndex` non-decreasing. -/
theorem seqStep_opIndex_mono {N : Nat} {s s' : SeqProgSt} {e : SeqEvent}
    (h : SeqStep N s e s') : progOpIndex N s ≤ progOpIndex N s' := by
  cases h <;> simp [progOpIndex] <;> omega

/-- Each step preserves the `seq` invariant. -/
theorem seqStep_inv {N : Nat} {s s' : SeqProgSt} {e : SeqEvent}
    (hstep : SeqStep N s e s') (hs : seqInv N s) : seqInv N s' := by
  cases hstep <;> simp_all [seqInv]

/-- Runs preserve the `seq` invariant. -/
theorem seqRun_inv {N : Nat} {s t : SeqProgSt} {es : List SeqEvent}
    (hrun : SeqRun N s es t) : seqInv N s → seqInv N t := by
  induction hrun with
  | refl => exact id
  | step hstep _ ih => exact fun hs => ih (seqStep_inv hstep hs)

/-- Any state satisfying the invariant has `progOpIndex` at most `N`. -/
theorem seqInv_opIndex_le {N : Nat} {s : SeqProgSt} (hs : seqInv N s) :
    progOpIndex N s ≤ N := by
  rcases s with ⟨eff, b⟩
  rcases eff with _ | e
  · simp [progOpIndex]
  · cases e <;> simp_all [seqInv, progOpIndex] <;> omega

/-- A run can end in a `done` effect only if it started done, started at
the last child already effective, or contains the observation of the last
child's `done`. -/
theorem seqRun_done_childDone {N : Nat} {s t : SeqProgSt} {es : List SeqEvent}
    (hrun : SeqRun N s es t) :
    t.isDone = true →
    s.isDone = true ∨
    (s.effective = true ∧ s.isDone = false ∧ progOpIndex N s = N - 1) ∨
    SeqEvent.childDone (N - 1) ∈ es := by
  induction hrun with
  | refl => exact fun ht => Or.inl ht
  | @step s s' t e es hstep hrest ih =>
    intro ht
    rcases ih ht with hdone | ⟨heff, hnd, hidx⟩ | hmem
    · cases hstep with
      | execFirst cs hN hlen => simp [SeqProgSt.isDone] at hdone
      | observeDone i cs hi => simp [SeqProgSt.isDone] at hdone
      | advance i cs ce h => simp [SeqProgSt.isDone] at hdone
      | complete i cs h =>
        right; left
        refine ⟨rfl, by simp [SeqProgSt.isDone], ?_⟩
        simp only [progOpIndex]
        omega
    · cases hstep with
      | execFirst cs hN hlen => simp at heff
      | observeDone i cs hi =>
        right; right
        have hii : i = N - 1 := by simpa [progOpIndex] using hidx
        rw [← hii]
        exact List.mem_cons_self _ _
      | advance i cs ce h => simp at heff
      | complete i cs h => simp [SeqProgSt.isDone] at hnd
    · exact Or.inr (Or.inr (List.mem_cons_of_mem _ hmem))

/-- In any run, an evaluation of child `i + 1` is preceded (within the
trace) by the observation of child `i`'s `done`, unless the run already
started at child `i` effective. -/
theorem seqRun_evalChild_after_childDone {N : Nat} {s t : SeqProgSt} {es : List SeqEvent}
    (hrun : SeqRun N s es t) :
    ∀ i es₁ es₂, es = es₁ ++ SeqEvent.evalChild (i + 1) :: es₂ →
      SeqEvent.childDone i ∈ es₁ ∨
      (s.effective = true ∧ s.isDone = false ∧ progOpIndex N s = i) := by
  induction hrun with
  | refl =>
    intro i es₁ es₂ heq
    exact absurd heq (by simp)
  | @step s s' t e es hstep hrest ih =>
    intro i es₁ es₂ heq
    cases es₁ with
    | nil =>
      simp only [List.nil_append, List.cons.injEq] at heq
      obtain ⟨he, -⟩ := heq
      subst he
      cases hstep with
      | advance i' cs ce h =>
        exact Or.inr ⟨rfl, by simp [SeqProgSt.isDone], by simp [progOpIndex]⟩
    | cons e₁ es₁' =>
      simp only [List.cons_append, List.cons.injEq] at heq
      obtain ⟨he, htail⟩ := heq
      subst he
      rcases ih i es₁' es₂ htail with hmem | ⟨heff, hnd, hidx⟩
      · exact Or.inl (List.mem_cons_of_mem _ hmem)
      · cases hstep with
        | execFirst cs hN hlen => simp at heff
        | observeDone i' cs hi =>
          left
          have hii : i' = i := by simpa [progOpIndex] using hidx
          rw [← hii]
          exact List.mem_cons_self _ _
        | advance i' cs ce h => simp at heff
        | complete i' cs h => simp [SeqProgSt.isDone] at hnd

end ActionQueue

namespace ActionQueue

/-- C1: along every run of a `seq` program with `N` children from the
initial state, the `opIndex` is non-decreasing at every step and never
exceeds `N`; the program's effect becomes `done` only after the last child
(index `N - 1`) was observed `done`; and child `i + 1` is never evaluated
before child `i` was observed `done`. -/
theorem seq_program_invariants (N : Nat) (es : List SeqEvent) (t : SeqProgSt)
    (hrun : SeqRun N initSeqSt es t) :
    (∀ s e s', SeqStep N s e s' → progOpIndex N s ≤ progOpIndex N s') ∧
    progOpIndex N t ≤ N ∧
    (t.isDone = true → SeqEvent.childDone (N - 1) ∈ es) ∧
    (∀ i es₁ es₂, es = es₁ ++ SeqEvent.evalChild (i + 1) :: es₂ →
      SeqEvent.childDone i ∈ es₁) := by
  refine ⟨fun s e s' h => seqStep_opIndex_mono h, ?_, ?_, ?_⟩
  · exact seqInv_opIndex_le (seqRun_inv hrun (by simp [seqInv, initSeqSt]))
  · intro ht
    rcases seqRun_done_childDone hrun ht with h | ⟨heff, -, -⟩ | h
    · simp [initSeqSt, SeqProgSt.isDone] at h
    · simp [initSeqSt] at heff
    · exact h
  · intro i es₁ es₂ heq
    rcases seqRun_evalChild_after_childDone hrun i es₁ es₂ heq with h | ⟨heff, -, -⟩
    · exact h
    · simp [initSeqSt] at heff

/-- C1 witness: the complete run of a one-child `seq` program — first
evaluation of child 0, observation of its `done`, and completion. -/
theorem seq_program_invariants_witness :
    (∀ s e s', SeqStep 1 s e s' → progOpIndex 1 s ≤ progOpIndex 1 s') ∧
    progOpIndex 1 { effect := some (.done none none), effective := true } ≤ 1 ∧
    (SeqProgSt.isDone { effect := some (.done none none), effective := true } = true →
      SeqEvent.childDone (1 - 1) ∈
        [SeqEvent.evalChild 0, SeqEvent.childDone 0, SeqEvent.finish]) ∧
    (∀ i es₁ es₂,
      [SeqEvent.evalChild 0, SeqEvent.childDone 0, SeqEvent.finish] =
        es₁ ++ SeqEvent.evalChild (i + 1) :: es₂ →
      SeqEvent.childDone i ∈ es₁) :=
  seq_program_invariants 1 [.evalChild 0, .childDone 0, .finish]
    { effect := some (.done none none), effective := true }
    (SeqRun.step (SeqStep.execFirst [none] (by omega) rfl)
      (SeqRun.step (SeqStep.observeDone 0 [none] (by simp))
        (SeqRun.step (SeqStep.complete 0 ([none].set 0 (some (.done none none))) rfl)
          (SeqRun.refl _))))

end ActionQueue

namespace TcSavers

/-- C6: `fetchChangeQuote` raises a validation error with no side effect
performed (empty effect trace) whenever the policy id is unknown, the
request currency differs from the policy's stake-asset currency, the
policy's plugin id differs from the wallet's, or the currency differs from
the wallet's mainnet currency code. -/
theorem fetchChangeQuote_validation_first (env : StakeEnv) (request : ChangeQuoteRequest)
    (h : getPolicyFromId request.stakePolicyId = .error .policyNotFound ∨
      ∃ policy, getPolicyFromId request.stakePolicyId = .ok policy ∧
        (request.currencyCode ≠
            (policy.stakeAssets.headD { pluginId := "", currencyCode := "" }).currencyCode ∨
         (policy.stakeAssets.headD { pluginId := "", currencyCode := "" }).pluginId ≠
            request.wallet.pluginId ∨
         request.currencyCode ≠ request.wallet.currencyCode)) :
    ∃ e, fetchChangeQuote env request = (.error e, []) ∧ isValidationError e = true := by
  unfold fetchChangeQuote
  rcases h with h | ⟨policy, hp, hmis⟩
  · rw [h]
    exact ⟨.policyNotFound, rfl, rfl⟩
  · rw [hp]
    by_cases h1 : request.currencyCode =
        (policy.stakeAssets.headD { pluginId := "", currencyCode := "" }).currencyCode
    case neg => exact ⟨.currencyCodeMismatch, if_pos h1, rfl⟩
    case pos =>
      by_cases h2 : (policy.stakeAssets.headD { pluginId := "", currencyCode := "" }).pluginId =
          request.wallet.pluginId
      case neg =>
        exact ⟨.pluginIdMismatch, (if_neg (not_not_intro h1)).trans (if_pos h2), rfl⟩
      case pos =>
        by_cases h3 : request.currencyCode = request.wallet.currencyCode
        case neg =>
          exact ⟨.notMainnetCurrency,
            ((if_neg (not_not_intro h1)).trans (if_neg (not_not_intro h2))).trans (if_pos h3),
            rfl⟩
        case pos =>
          exfalso
          rcases hmis with hm | hm | hm
          · exact hm h1
          · exact hm h2
          · exact hm h3

/-- C6 witness: a request with an unknown policy id yields a validation
error and an empty effect trace. -/
theorem fetchChangeQuote_validation_first_witness :
    ∃ e, fetchChangeQuote testStakeEnv
        { action := .stake, stakePolicyId := "nope", currencyCode := "BTC",
          nativeAmount := 0, wallet := testWallet 0 } = (.error e, []) ∧
      isValidationError e = true :=
  fetchChangeQuote_validation_first testStakeEnv
    { action := .stake, stakePolicyId := "nope", currencyCode := "BTC",
      nativeAmount := 0, wallet := testWallet 0 }
    (Or.inl rfl)

end TcSavers

namespace TcSavers

/-- Passing validation with a `stake` action makes `fetchChangeQuote`
defer to `stakeRequest`. -/
theorem fetchChangeQuote_stake_dispatch (env : StakeEnv) (request : ChangeQuoteRequest)
    (policy : StakePolicy)
    (hact : request.action = .stake)
    (hpol : getPolicyFromId request.stakePolicyId = .ok policy)
    (hcc : request.currencyCode =
      (policy.stakeAssets.headD { pluginId := "", currencyCode := "" }).currencyCode)
    (hpid : (policy.stakeAssets.headD { pluginId := "", currencyCode := "" }).pluginId =
      request.wallet.pluginId)
    (hmain : request.currencyCode = request.wallet.currencyCode) :
    fetchChangeQuote env request = stakeRequest env request policy := by
  unfold fetchChangeQuote
  rw [hpol]
  refine (((if_neg (not_not_intro hcc)).trans (if_neg (not_not_intro hpid))).trans
    (if_neg (not_not_intro hmain))).trans ?_
  rw [hact]

/-- A stake amount above the minimum but above the wallet balance fails
with `InsufficientFundsError` after only the denomination lookup. -/
theorem stakeRequest_insufficient_balance (env : StakeEnv) (request : ChangeQuoteRequest)
    (policy : StakePolicy) (info : PolicyCurrencyInfo)
    (hinfo : policyCurrencyInfos request.wallet.pluginId = some info)
    (hmin : info.minAmount + TC_SAVERS_WITHDRAWAL_SCALE_UNITS ≤ request.nativeAmount)
    (hbal : request.wallet.balances request.currencyCode < request.nativeAmount) :
    stakeRequest env request policy =
      (.error (.insufficientFunds request.currencyCode), [.walletCall "nativeToDenomination"]) := by
  unfold stakeRequest
  simp only [hinfo]
  exact (if_neg (not_lt.mpr hmin)).trans (if_pos hbal)

/-- When the primary address needs funding and the balance remaining after
twice the funding fee would be negative, the stake fails with
`InsufficientFundsError`. -/
theorem stakeRequest_insufficient_after_funding (env : StakeEnv) (request : ChangeQuoteRequest)
    (policy : StakePolicy) (info : PolicyCurrencyInfo) (fee : Int) (q : Int × String)
    (hinfo : policyCurrencyInfos request.wallet.pluginId = some info)
    (hmin : info.minAmount + TC_SAVERS_WITHDRAWAL_SCALE_UNITS ≤ request.nativeAmount)
    (hbal2 : request.nativeAmount ≤ request.wallet.balances request.currencyCode)
    (hq : env.quote = some q)
    (hnf : needsFundingPrimary env request = true)
    (hfund : env.estimateFundSpend = .ok fee)
    (hrem : request.wallet.balances request.currencyCode - fee * 2 - request.nativeAmount < 0) :
    (stakeRequest env request policy).1 = .error (.insufficientFunds request.currencyCode) := by
  unfold stakeRequest
  simp only [hinfo, hq, hnf, hfund]
  rw [if_neg (not_lt.mpr hmin), if_neg (not_lt.mpr hbal2), if_pos hrem]
  simp

/-- C7 counterexample: a valid stake request whose amount exceeds the
wallet balance but lies below the minimum stake amount fails with the
minimum-amount error, not with `InsufficientFundsError`. -/
theorem stake_below_min_preempts_insufficient :
    (testStakeReq 100 0).action = ChangeQuoteAction.stake ∧
    (testStakeReq 100 0).wallet.balances (testStakeReq 100 0).currencyCode <
      (testStakeReq 100 0).nativeAmount ∧
    (fetchChangeQuote testStakeEnv (testStakeReq 100 0)).1 = .error .belowMinStake ∧
    QuoteError.isInsufficientFunds .belowMinStake = false :=
  ⟨rfl, by decide, rfl, rfl⟩

/-- C7 (amended): for a validated stake request whose amount meets the
minimum stake amount, `fetchChangeQuote` fails with an
`InsufficientFundsError` surfaced unchanged both when the amount exceeds
the wallet balance and when the balance remaining after funding fees would
be negative. -/
theorem stake_insufficient_funds_surfaced (env : StakeEnv) (request : ChangeQuoteRequest)
    (policy : StakePolicy) (info : PolicyCurrencyInfo)
    (hact : request.action = .stake)
    (hpol : getPolicyFromId request.stakePolicyId = .ok policy)
    (hcc : request.currencyCode =
      (policy.stakeAssets.headD { pluginId := "", currencyCode := "" }).currencyCode)
    (hpid : (policy.stakeAssets.headD { pluginId := "", currencyCode := "" }).pluginId =
      request.wallet.pluginId)
    (hmain : request.currencyCode = request.wallet.currencyCode)
    (hinfo : policyCurrencyInfos request.wallet.pluginId = some info)
    (hmin : info.minAmount + TC_SAVERS_WITHDRAWAL_SCALE_UNITS ≤ request.nativeAmount) :
    (request.wallet.balances request.currencyCode < request.nativeAmount →
      (fetchChangeQuote env request).1 = .error (.insufficientFunds request.currencyCode)) ∧
    (∀ fee q, env.quote = some q →
      request.nativeAmount ≤ request.wallet.balances request.currencyCode →
      needsFundingPrimary env request = true →
      env.estimateFundSpend = .ok fee →
      request.wallet.balances request.currencyCode - fee * 2 - request.nativeAmount < 0 →
      (fetchChangeQuote env request).1 = .error (.insufficientFunds request.currencyCode)) := by
  rw [fetchChangeQuote_stake_dispatch env request policy hact hpol hcc hpid hmain]
  constructor
  · intro hbal
    rw [stakeRequest_insufficient_balance env request policy info hinfo hmin hbal]
  · intro fee q hq hbal2 hnf hfund hrem
    exact stakeRequest_insufficient_after_funding env request policy info fee q
      hinfo hmin hbal2 hq hnf hfund hrem

/-- C7 witness: the amended statement instantiated at a valid bitcoin
stake request of 20000 units against a balance of 5. -/
theorem stake_insufficient_funds_surfaced_witness :
    ((testStakeReq 20000 5).wallet.balances (testStakeReq 20000 5).currencyCode <
        (testStakeReq 20000 5).nativeAmount →
      (fetchChangeQuote testStakeEnv (testStakeReq 20000 5)).1 =
        .error (.insufficientFunds (testStakeReq 20000 5).currencyCode)) ∧
    (∀ fee q, testStakeEnv.quote = some q →
      (testStakeReq 20000 5).nativeAmount ≤
        (testStakeReq 20000 5).wallet.balances (testStakeReq 20000 5).currencyCode →
      needsFundingPrimary testStakeEnv (testStakeReq 20000 5) = true →
      testStakeEnv.estimateFundSpend = .ok fee →
      (testStakeReq 20000 5).wallet.balances (testStakeReq 20000 5).currencyCode - fee * 2 -
          (testStakeReq 20000 5).nativeAmount < 0 →
      (fetchChangeQuote testStakeEnv (testStakeReq 20000 5)).1 =
        .error (.insufficientFunds (testStakeReq 20000 5).currencyCode)) :=
  stake_insufficient_funds_surfaced testStakeEnv (testStakeReq 20000 5) btcPolicy utxoInfo
    rfl rfl rfl rfl rfl rfl (by decide)

end TcSavers

namespace TcSavers

/-- C8: `stakeRequest` rejects any stake whose amount is strictly below
the chain's minimum amount plus the withdrawal scale units (10000), and
it does so before any network fetch — in particular before any Thorchain
quote is fetched. -/
theorem stake_min_amount_check (env : StakeEnv) (request : ChangeQuoteRequest)
    (policy : StakePolicy) (info : PolicyCurrencyInfo)
    (hinfo : policyCurrencyInfos request.wallet.pluginId = some info)
    (hlt : request.nativeAmount < info.minAmount + TC_SAVERS_WITHDRAWAL_SCALE_UNITS) :
    (stakeRequest env request policy).1 = .error .belowMinStake ∧
    ∀ path, SideEffect.networkFetch path ∉ (stakeRequest env request policy).2 := by
  have h : stakeRequest env request policy =
      (.error .belowMinStake, [.walletCall "nativeToDenomination"]) := by
    unfold stakeRequest
    simp only [hinfo]
    exact if_pos hlt
  rw [h]
  exact ⟨rfl, by simp⟩

/-- C8 witness: staking 19999 units on bitcoin (minimum 10000 + 10000) is
rejected without a network fetch. -/
theorem stake_min_amount_check_witness :
    (stakeRequest testStakeEnv (testStakeReq 19999 100000) btcPolicy).1 =
      .error .belowMinStake ∧
    ∀ path, SideEffect.networkFetch path ∉
      (stakeRequest testStakeEnv (testStakeReq 19999 100000) btcPolicy).2 :=
  stake_min_amount_check testStakeEnv (testStakeReq 19999 100000) btcPolicy utxoInfo
    rfl (by decide)

/-- Truncation toward zero preserves non-positivity. -/
theorem truncToInt_nonpos {q : Rat} (h : q ≤ 0) : truncToInt q ≤ 0 := by
  unfold truncToInt
  split
  · next h0 =>
    have hq : q = 0 := le_antisymm h h0
    simp [hq]
  · next h0 =>
    have h1 : (0 : Rat) ≤ -q := by linarith
    have h2 : 0 ≤ ⌊-q⌋ := Int.floor_nonneg.mpr h1
    omega

/-- Truncated division of a non-positive value by a non-negative one is
non-positive. -/
theorem bigDiv_nonpos {a b : Rat} (ha : a ≤ 0) (hb : 0 ≤ b) (p : Nat) :
    bigDiv a b p ≤ 0 := by
  unfold bigDiv
  have h1 : a / b ≤ 0 := div_nonpos_iff.mpr (Or.inr ⟨ha, hb⟩)
  have h2 : a / b * (10 : Rat) ^ p ≤ 0 :=
    mul_nonpos_of_nonpos_of_nonneg h1 (by positivity)
  have h3 : (truncToInt (a / b * (10 : Rat) ^ p) : Rat) ≤ 0 := by
    exact_mod_cast truncToInt_nonpos h2
  exact div_nonpos_iff.mpr (Or.inr ⟨h3, by positivity⟩)

/-- C9: every successful `fetchStakePosition` returns a non-negative
earned allocation, and whenever the redeemable value
(units * saversDepth / saversUnits) is below the staked deposit value the
earned amount is capped to 0. -/
theorem earned_amount_nonneg (env : PositionEnv) (request : StakePositionRequest)
    (pos : StakePosition) (h : fetchStakePosition env request = .ok pos) :
    (∀ a ∈ pos.allocations, a.allocationType = .earned → 0 ≤ a.nativeAmount) ∧
    (∀ policy saver pool, getPolicyFromId request.stakePolicyId = .ok policy →
      findSaver env = some saver → findPool env policy = some pool →
      redeemableValue saver pool < (saver.asset_deposit_value : Rat) →
      ∀ a ∈ pos.allocations, a.allocationType = .earned → a.nativeAmount = 0) := by
  unfold fetchStakePosition at h
  cases hpol : getPolicyFromId request.stakePolicyId with
  | error e =>
    simp only [hpol] at h
    exact absurd h (by simp)
  | ok policy =>
    simp only [hpol] at h
    cases hs : findSaver env with
    | none =>
      simp only [hs] at h
      injection h with h
      subst h
      constructor
      · intro a ha hat
        simp only [List.mem_cons, List.not_mem_nil, or_false] at ha
        rcases ha with rfl | rfl <;> simp
      · intro policy' saver' pool' hpol' hs' hp' hred
        exact absurd hs' (by simp)
    | some saver =>
      simp only [hs] at h
      cases hp2 : findPool env policy with
      | none =>
        simp only [hp2] at h
        injection h with h
        subst h
        constructor
        · intro a ha hat
          simp only [List.mem_cons, List.not_mem_nil, or_false] at ha
          rcases ha with rfl | rfl <;> simp
        · intro policy' saver' pool' hpol' hs' hp' hred
          injection hpol' with hpe
          subst hpe
          rw [hp2] at hp'
          exact absurd hp' (by simp)
      | some pool =>
        simp only [hp2] at h
        by_cases hz : pool.saversUnits = 0
        · rw [if_pos hz] at h
          exact absurd h (by simp)
        · rw [if_neg hz] at h
          injection h with h
          subst h
          constructor
          · intro a ha hat
            simp only [List.mem_cons, List.not_mem_nil, or_false] at ha
            rcases ha with rfl | rfl
            · exact absurd hat (by simp)
            · exact le_max_right _ _
          · intro policy' saver' pool' hpol' hs' hp' hred
            injection hpol' with hpe
            subst hpe
            injection hs' with hse
            subst hse
            rw [hp2] at hp'
            injection hp' with hpe2
            subst hpe2
            intro a ha hat
            simp only [List.mem_cons, List.not_mem_nil, or_false] at ha
            rcases ha with rfl | rfl
            · exact absurd hat (by simp)
            · have hneg : redeemableValue saver pool -
                  (saver.asset_deposit_value : Rat) ≤ 0 := by linarith
              have h1 : bigDiv (redeemableValue saver pool -
                    (saver.asset_deposit_value : Rat))
                  ((THOR_LIMIT_UNITS : Int) : Rat) DIVIDE_PRECISION ≤ 0 :=
                bigDiv_nonpos hneg (by norm_num [THOR_LIMIT_UNITS]) _
              have h2 : bigDiv (redeemableValue saver pool -
                      (saver.asset_deposit_value : Rat))
                    ((THOR_LIMIT_UNITS : Int) : Rat) DIVIDE_PRECISION *
                    ((request.wallet.denomMultiplier : Nat) : Rat) ≤ 0 :=
                mul_nonpos_of_nonpos_of_nonneg h1 (by positivity)
              have h3 := truncToInt_nonpos h2
              exact max_eq_right h3

/-- C9 witness: the test saver deposited 60 but is redeemable for only 50,
and the returned earned amount is capped at 0 with the staked amount 60. -/
theorem earned_amount_nonneg_witness :
    (∀ a ∈ testPosResult.allocations,
      a.allocationType = .earned → 0 ≤ a.nativeAmount) ∧
    (∀ policy saver pool, getPolicyFromId testPosReq.stakePolicyId = .ok policy →
      findSaver testPosEnv = some saver → findPool testPosEnv policy = some pool →
      redeemableValue saver pool < (saver.asset_deposit_value : Rat) →
      ∀ a ∈ testPosResult.allocations,
        a.allocationType = .earned → a.nativeAmount = 0) :=
  earned_amount_nonneg testPosEnv testPosReq testPosResult (by
    unfold fetchStakePosition
    simp only [show getPolicyFromId testPosReq.stakePolicyId = .ok btcPolicy from rfl,
      show findSaver testPosEnv = some testSaver from rfl,
      show findPool testPosEnv btcPolicy = some testPool from rfl]
    norm_num [redeemableValue, bigDiv, truncToInt, DIVIDE_PRECISION, THOR_LIMIT_UNITS,
      testSaver, testPool, testPosReq, testWallet, btcPolicy, testPosResult])

/-- C10: when no saver matches the wallet's primary address or no pool
matches the asset, every allocation of the returned position is 0; and in
every successful case the returned `canStake`, `canUnstake` and `canClaim`
flags are all true. -/
theorem position_default_and_flags (env : PositionEnv) (request : StakePositionRequest)
    (policy : StakePolicy) (pos : StakePosition)
    (hpol : getPolicyFromId request.stakePolicyId = .ok policy)
    (h : fetchStakePosition env request = .ok pos) :
    ((findSaver env = none ∨ findPool env policy = none) →
      ∀ a ∈ pos.allocations, a.nativeAmount = 0) ∧
    pos.canStake = true ∧ pos.canUnstake = true ∧ pos.canClaim = true := by
  unfold fetchStakePosition at h
  simp only [hpol] at h
  cases hs : findSaver env with
  | none =>
    simp only [hs] at h
    injection h with h
    subst h
    refine ⟨?_, rfl, rfl, rfl⟩
    intro hnone a ha
    simp only [List.mem_cons, List.not_mem_nil, or_false] at ha
    rcases ha with rfl | rfl <;> rfl
  | some saver =>
    simp only [hs] at h
    cases hp2 : findPool env policy with
    | none =>
      simp only [hp2] at h
      injection h with h
      subst h
      refine ⟨?_, rfl, rfl, rfl⟩
      intro hnone a ha
      simp only [List.mem_cons, List.not_mem_nil, or_false] at ha
      rcases ha with rfl | rfl <;> rfl
    | some pool =>
      simp only [hp2] at h
      by_cases hz : pool.saversUnits = 0
      · rw [if_pos hz] at h
        exact absurd h (by simp)
      · rw [if_neg hz] at h
        injection h with h
        subst h
        refine ⟨?_, rfl, rfl, rfl⟩
        intro hnone
        exfalso
        rcases hnone with hn | hn <;> simp at hn

/-- C10 witness: with no savers and no pools fetched, the returned
position has zero allocations and all capability flags true. -/
theorem position_default_and_flags_witness :
    ((findSaver emptyPosEnv = none ∨ findPool emptyPosEnv btcPolicy = none) →
      ∀ a ∈ emptyPosResult.allocations, a.nativeAmount = 0) ∧
    emptyPosResult.canStake = true ∧ emptyPosResult.canUnstake = true ∧
    emptyPosResult.canClaim = true :=
  position_default_and_flags emptyPosEnv testPosReq btcPolicy emptyPosResult rfl rfl

end TcSavers
